import Mathlib

/-!
# Verification of the MDT route-string decoder

A shallow embedding of `src/tools/mdt_decoder.py` (the MDT route-string
decoder) together with proofs about its stages:

* the custom base64 alphabet stage (`decode_custom_b64`),
* the decompression wrapper (`decompress_data`, with the external zlib
  codec modelled as an explicit parameter),
* the placeholder AceSerializer parser (`parse_ace_serialized_data`),
* the top-level pipeline (`decode_mdt_route_string`).

Python strings are modelled as `List Char`, bytes as `List Nat` (each
element `< 256`), dictionaries as ordered association lists (Python dicts
preserve insertion order), and Python floats as the exact rational values
of IEEE-754 binary64 numbers: `round(c / d, 2)` is modelled bit-exactly by
`pyRound2` (binary64 quotient, decimal rounding of the double, binary64
read-back), which differs from ideal exact decimal rounding (`round2`) at
decimal ties such as 51/40.
-/

namespace MDT

/-- The fixed 64-symbol alphabet `B64_ALPHABET` from the source
(lower-case letters, upper-case letters, digits, then `(` and `)`). -/
def B64_ALPHABET : List Char :=
  "abcdefghijklmnopqrstuvwxyzABCDEFGHIJKLMNOPQRSTUVWXYZ0123456789()".toList

/-- `create_b64_decode_table` builds a char-to-index lookup for the
alphabet; membership failure is `none` (the Python dict simply lacks the
key). -/
def create_b64_decode_table (c : Char) : Option Nat :=
  B64_ALPHABET.findIdx? (fun x => x = c)

/-- `format(v, '0wb')`: the `w`-bit binary expansion of `v`,
most-significant bit first. -/
def natBits : Nat → Nat → List Bool
  | 0, _ => []
  | w + 1, v => natBits w (v / 2) ++ [decide (v % 2 = 1)]

/-- `int(chunk, 2)`: read a most-significant-bit-first bit list back as a
number. -/
def bitsToNat (l : List Bool) : Nat :=
  l.foldl (fun acc b => 2 * acc + (if b then 1 else 0)) 0

/-- `encoded_str.rstrip('=')`: drop trailing `=` characters. -/
def rstripPad (s : List Char) : List Char :=
  (s.reverse.dropWhile (fun c => c = '=')).reverse

/-- The bits contributed by one input character: its 6-bit alphabet value
when the character is in the table, nothing otherwise (tolerant skip). -/
def charBits (c : Char) : List Bool :=
  match create_b64_decode_table c with
  | some v => natBits 6 v
  | none => []

/-- The byte-assembly loop of `decode_custom_b64`: take consecutive full
8-bit chunks of the bit string, read each as a byte, and drop any
incomplete trailing chunk. -/
def toBytes : List Bool → List Nat
  | b0 :: b1 :: b2 :: b3 :: b4 :: b5 :: b6 :: b7 :: rest =>
      bitsToNat [b0, b1, b2, b3, b4, b5, b6, b7] :: toBytes rest
  | _ => []

/-- `decode_custom_b64` from the source: strip trailing `=`, map each
alphabet character to its 6-bit value (skipping characters not in the
alphabet), concatenate the bits and regroup them into bytes. -/
def decode_custom_b64 (encoded_str : List Char) : List Nat :=
  toBytes ((rstripPad encoded_str).flatMap charBits)

/-- Split a list into consecutive chunks of width `w`, discarding any
incomplete trailing chunk. -/
def chunks (w : Nat) (l : List α) : List (List α) :=
  (List.range (l.length / w)).map (fun i => (l.drop (w * i)).take w)

/-- The alphabet-decoding algorithm exactly as the specification words it:
each character present in the alphabet contributes its 6-bit position
value, absent characters are skipped, the bits are concatenated and
re-sliced into 8-bit groups, and an incomplete final group is dropped. -/
def decode_custom_b64_spec (encoded_str : List Char) : List Nat :=
  (chunks 8 (encoded_str.flatMap charBits)).map bitsToNat

/-- Modelled from the spec: the addon-side encoder is not under `src/`;
per the spec it packs the 8-bit expansions of the bytes into 6-bit
symbols, padding the tail bit group (alignment padding, value
irrelevant — taken as zero bits here), and maps each 6-bit value to the
alphabet character at that position. -/
def encode_custom_b64 (data : List Nat) : List Char :=
  (chunks 6 (data.flatMap (natBits 8) ++
      List.replicate ((6 - (data.flatMap (natBits 8)).length % 6) % 6) false)).map
    (fun g => B64_ALPHABET.getD (bitsToNat g) 'a')

/-- A Python value as it appears in the decoder's JSON-compatible output:
strings, ints, floats (modelled as exact rationals), booleans, and
insertion-ordered dictionaries. -/
inductive PyVal where
  | pyStr : List Char → PyVal
  | pyInt : Nat → PyVal
  | pyFloat : ℚ → PyVal
  | pyBool : Bool → PyVal
  | pyDict : List (String × PyVal) → PyVal

/-- Lower-case hexadecimal digit. -/
def hexDigit (n : Nat) : Char :=
  "0123456789abcdef".toList.getD n '0'

/-- One character of Python's `unicode_escape` codec: backslash doubled,
tab/newline/carriage-return as two-character escapes, other controls and
all of `0x7f`–`0xff` as `\xHH`, codepoints above `0xff` as `\uHHHH` or
`\UHHHHHHHH`, everything else literal. -/
def escapeChar (c : Char) : List Char :=
  let n := c.toNat
  if c = '\\' then ['\\', '\\']
  else if n = 9 then ['\\', 't']
  else if n = 10 then ['\\', 'n']
  else if n = 13 then ['\\', 'r']
  else if n < 32 ∨ (127 ≤ n ∧ n < 256) then
    ['\\', 'x', hexDigit (n / 16), hexDigit (n % 16)]
  else if 65536 ≤ n then
    ['\\', 'U', hexDigit (n / 16 ^ 7 % 16), hexDigit (n / 16 ^ 6 % 16),
     hexDigit (n / 16 ^ 5 % 16), hexDigit (n / 16 ^ 4 % 16),
     hexDigit (n / 4096 % 16), hexDigit (n / 256 % 16),
     hexDigit (n / 16 % 16), hexDigit (n % 16)]
  else if 256 ≤ n then
    ['\\', 'u', hexDigit (n / 4096 % 16), hexDigit (n / 256 % 16),
     hexDigit (n / 16 % 16), hexDigit (n % 16)]
  else [c]

/-- `data.encode('unicode_escape').decode('ascii')`. -/
def unicodeEscape (s : List Char) : List Char :=
  s.flatMap escapeChar

/-- `decompressed_data.decode('latin-1')`: byte `n` becomes the character
with codepoint `n`. -/
def latin1Decode (bs : List Nat) : List Char :=
  bs.map Char.ofNat

/-- Python's substring test `pat in s`: some contiguous slice of `s`
equals `pat`. -/
def isSubstring (pat s : List Char) : Bool :=
  (List.range (s.length + 1)).any (fun i => (s.drop i).take pat.length == pat)

/-- `parse_ace_serialized_data` from the source: strip the two-byte
version header when present, then return the fixed summary dictionary
(format tag, `unicode_escape`d raw text, placeholder note) extended with
`contains_*` flags for each known substring found. The Python body's
`try` block contains no failing operation on `str` input, so the
`except` branch is unreachable and not modelled. -/
def parse_ace_serialized_data (data : List Char) : List (String × PyVal) :=
  let data1 := if data.take 2 = [Char.ofNat 1, Char.ofNat 0] then data.drop 2 else data
  let base := [("format", PyVal.pyStr "AceSerializer".toList),
    ("raw_data", PyVal.pyStr (unicodeEscape data1)),
    ("parsed_data",
     PyVal.pyStr "Partial parsing - full AceSerializer implementation needed".toList)]
  let r1 := if isSubstring "week".toList data1 then
      base ++ [("contains_week_info", PyVal.pyBool true)] else base
  let r2 := if isSubstring "objects".toList data1 then
      r1 ++ [("contains_objects", PyVal.pyBool true)] else r1
  if isSubstring "pulls".toList data1 then
    r2 ++ [("contains_pulls", PyVal.pyBool true)] else r2

/-- `decompress_data` from the source. zlib is an external C library, so
its behaviour is a parameter `zlibDecompress`; the wrapper re-raises any
codec failure as `ValueError("Decompression failed: " + diagnostic)`. -/
def decompress_data (zlibDecompress : List Nat → Except (List Char) (List Nat))
    (compressed_data : List Nat) : Except (List Char) (List Nat) :=
  match zlibDecompress compressed_data with
  | .ok r => .ok r
  | .error e => .error ("Decompression failed: ".toList ++ e)

/-- Step 1 of `decode_mdt_route_string`: remove one leading `!` marker. -/
def strip_marker (route_string : List Char) : List Char :=
  match route_string with
  | '!' :: rest => rest
  | s => s

/-- Round a rational to the nearest integer, ties to the even integer. -/
def roundHalfEven (q : ℚ) : ℤ :=
  let d : ℤ := (q.den : ℤ)
  let f : ℤ := q.num.fdiv d
  let r : ℤ := q.num - f * d
  if 2 * r < d then f
  else if d < 2 * r then f + 1
  else if f % 2 = 0 then f else f + 1

/-- Ideal exact decimal rounding of the true rational to two places
(round-half-to-even). This is what the specification's words "rounded to
2 decimal digits" denote when read over the exact quotient; the program
instead rounds the binary64 quotient (see `pyRound2`), and the two
disagree at decimal ties such as 51/40. -/
def round2 (q : ℚ) : ℚ :=
  Rat.divInt (roundHalfEven (Rat.divInt (100 * q.num) q.den)) 100

/-- Round-half-even of `p / q` over naturals, for `q > 0`. -/
def rndInt (p q : Nat) : Nat :=
  let f := p / q
  let r := p - f * q
  if 2 * r < q then f
  else if q < 2 * r then f + 1
  else if f % 2 = 0 then f else f + 1

/-- Fuelled `⌊log2 n⌋` (the fuel `n` itself always suffices), kept
structurally recursive so that concrete values reduce in the kernel. -/
def natLog2F : Nat → Nat → Nat
  | 0, _ => 0
  | fuel + 1, n => if n ≤ 1 then 0 else natLog2F fuel (n / 2) + 1

/-- `⌊log2 n⌋` for `n ≥ 1` (and 0 at 0). -/
def natLog2 (n : Nat) : Nat :=
  natLog2F n n

/-- `⌊log2 (a / b)⌋` for `a, b ≥ 1`. -/
def ratFloorLog2 (a b : Nat) : ℤ :=
  let e0 : ℤ := (natLog2 a : ℤ) - (natLog2 b : ℤ)
  let ge : Bool := if 0 ≤ e0 then decide (b * 2 ^ e0.toNat ≤ a)
    else decide (b ≤ a * 2 ^ (-e0).toNat)
  if ge then e0 else e0 - 1

/-- The IEEE-754 binary64 value nearest to `a / b` (for `a, b ≥ 1`),
returned as the dyadic pair `(m, k)` with value `m · 2^k`: round to 53
significant bits (ties to even), with the subnormal ulp clamped at
`2^(-1074)`. Values beyond the binary64 overflow threshold (quotient
`≥ 2^1024`, which no physically realizable input reaches) are kept as
exact dyadics rather than infinity. -/
def dyadicOfRat (a b : Nat) : Nat × ℤ :=
  let e := ratFloorLog2 a b
  let k : ℤ := if e - 52 < -1074 then (-1074 : ℤ) else e - 52
  let m : Nat := if 0 ≤ k then rndInt a (b * 2 ^ k.toNat)
    else rndInt (a * 2 ^ (-k).toNat) b
  (m, k)

/-- Python's `round(c / d, 2)` for a nonnegative quotient, as the exact
rational value of the resulting float: the quotient is first rounded to
the nearest binary64 (CPython's int division is correctly rounded), that
double's exact value is rounded to two decimal places half-to-even
(CPython's dtoa mode-3 correct rounding), and the decimal result is read
back as the nearest binary64. Validated against CPython on exhaustive
tie cases and random inputs. -/
def pyRound2 (q : ℚ) : ℚ :=
  if q.num ≤ 0 then 0
  else
    let p1 := dyadicOfRat q.num.toNat q.den
    let n : Nat := if 0 ≤ p1.2 then 100 * p1.1 * 2 ^ p1.2.toNat
      else rndInt (100 * p1.1) (2 ^ (-p1.2).toNat)
    if n = 0 then 0
    else
      let p2 := dyadicOfRat n 100
      if 0 ≤ p2.2 then mkRat ((p2.1 * 2 ^ p2.2.toNat : Nat) : ℤ) 1
      else mkRat (p2.1 : ℤ) (2 ^ (-p2.2).toNat)

/-- `route_string[:100] + "..." if len(route_string) > 100 else
route_string`: the bounded input excerpt placed in failure results. -/
def excerpt (route_string : List Char) : List Char :=
  if 100 < route_string.length then route_string.take 100 ++ "...".toList
  else route_string

/-- The failure dictionary built by the `except` handler of
`decode_mdt_route_string`, for an exception whose text is `e`. -/
def failure_result (route_string e : List Char) : List (String × PyVal) :=
  [("error", PyVal.pyStr ("Failed to decode route string: ".toList ++ e)),
   ("original_string", PyVal.pyStr (excerpt route_string))]

/-- `decode_mdt_route_string` from the source: strip the `!` marker,
alphabet-decode, decompress (failure or an empty decompression — whose
length would be divided by — lands in the `except` handler), parse, and
assemble the success dictionary. -/
def decode_mdt_route_string (zlibDecompress : List Nat → Except (List Char) (List Nat))
    (route_string : List Char) : List (String × PyVal) :=
  let compressed_data := decode_custom_b64 (strip_marker route_string)
  match decompress_data zlibDecompress compressed_data with
  | .error e => failure_result route_string e
  | .ok decompressed_data =>
    if decompressed_data.length = 0 then
      failure_result route_string "division by zero".toList
    else
      [("metadata", PyVal.pyDict
          [("original_length", PyVal.pyInt route_string.length),
           ("compressed_length", PyVal.pyInt compressed_data.length),
           ("decompressed_length", PyVal.pyInt decompressed_data.length),
           ("compression_ratio", PyVal.pyFloat
              (pyRound2 (mkRat (compressed_data.length : ℤ) decompressed_data.length)))]),
       ("route_data", PyVal.pyDict (parse_ace_serialized_data (latin1Decode decompressed_data)))]

/-- Erase the fields that echo the original input (the success metadata's
`original_length` and the failure `original_string`), leaving every other
field intact. -/
def eraseInputEcho (r : List (String × PyVal)) : List (String × PyVal) :=
  (r.filter (fun kv => kv.1 != "original_string")).map (fun kv =>
    match kv with
    | ("metadata", PyVal.pyDict m) =>
        ("metadata", PyVal.pyDict (m.filter (fun kv2 => kv2.1 != "original_length")))
    | other => other)

/-! ## Bit-level lemmas -/

theorem natBits_length (w v : Nat) : (natBits w v).length = w := by
  induction w generalizing v with
  | zero => rfl
  | succ k ih => simp [natBits, ih]

theorem bitsToNat_concat (l : List Bool) (b : Bool) :
    bitsToNat (l ++ [b]) = 2 * bitsToNat l + (if b then 1 else 0) := by
  simp [bitsToNat, List.foldl_append]

theorem bitsToNat_natBits (w v : Nat) (h : v < 2 ^ w) :
    bitsToNat (natBits w v) = v := by
  induction w generalizing v with
  | zero =>
      interval_cases v
      rfl
  | succ k ih =>
      have hv : v / 2 < 2 ^ k := by
        rw [pow_succ] at h
        omega
      rw [natBits, bitsToNat_concat, ih (v / 2) hv]
      rcases Nat.mod_two_eq_zero_or_one v with h2 | h2 <;> simp [h2] <;> omega

theorem natBits_bitsToNat (w : Nat) (l : List Bool) (h : l.length = w) :
    natBits w (bitsToNat l) = l := by
  induction w generalizing l with
  | zero =>
      rw [List.length_eq_zero] at h
      subst h
      rfl
  | succ k ih =>
      rcases List.eq_nil_or_concat l with rfl | ⟨t, b, rfl⟩
      · simp at h
      · rw [List.concat_eq_append] at *
        have ht : t.length = k := by simpa using h
        rw [bitsToNat_concat, natBits]
        have hdiv : (2 * bitsToNat t + (if b then 1 else 0)) / 2 = bitsToNat t := by
          cases b <;> simp <;> omega
        have hmod : decide ((2 * bitsToNat t + (if b then 1 else 0)) % 2 = 1) = b := by
          cases b <;> simp <;> omega
        rw [hdiv, hmod, ih t ht]

theorem bitsToNat_lt (l : List Bool) : bitsToNat l < 2 ^ l.length := by
  induction l using List.reverseRecOn with
  | nil => simp [bitsToNat]
  | append_singleton t b ih =>
      rw [bitsToNat_concat]
      simp only [List.length_append, List.length_singleton, pow_succ]
      cases b <;> simp <;> omega

/-! ## Chunking lemmas -/

theorem chunks_eq_nil {α : Type} (w : Nat) (l : List α) (h : l.length < w) :
    chunks w l = [] := by
  have : l.length / w = 0 := Nat.div_eq_of_lt h
  simp [chunks, this]

theorem chunks_cons {α : Type} (w : Nat) (l : List α) (hw : 0 < w) (h : w ≤ l.length) :
    chunks w l = l.take w :: chunks w (l.drop w) := by
  have h1 : l.length / w = (l.drop w).length / w + 1 := by
    rw [List.length_drop]
    conv_lhs => rw [show l.length = (l.length - w) + w by omega]
    rw [Nat.add_div_right _ hw]
  unfold chunks
  rw [h1, List.range_succ_eq_map, List.map_cons, List.map_map]
  congr 1
  apply List.map_congr_left
  intro i hi
  simp only [Function.comp_apply, List.drop_drop, Nat.succ_eq_add_one]
  have hw2 : w * (i + 1) = w + w * i := by ring
  rw [hw2]

theorem join_chunks {α : Type} (w : Nat) (l : List α) (hw : 0 < w) (h : w ∣ l.length) :
    (chunks w l).flatten = l := by
  obtain ⟨k, hk⟩ := h
  induction k generalizing l with
  | zero =>
      have : l = [] := List.eq_nil_of_length_eq_zero (by omega)
      subst this
      simp [chunks]
  | succ m ih =>
      have hle : w ≤ l.length := by
        rw [hk, Nat.mul_succ]
        omega
      rw [chunks_cons w l hw hle, List.flatten_cons,
        ih (l.drop w) (by rw [List.length_drop, hk, Nat.mul_succ]; omega),
        List.take_append_drop]

theorem length_mem_chunks {α : Type} (w : Nat) (l : List α) (g : List α)
    (hg : g ∈ chunks w l) : g.length = w := by
  simp only [chunks, List.mem_map, List.mem_range] at hg
  obtain ⟨i, hi, rfl⟩ := hg
  have h1 : w * (i + 1) ≤ w * (l.length / w) := Nat.mul_le_mul_left w hi
  have h2 : l.length / w * w ≤ l.length := Nat.div_mul_le_self _ _
  have h3 : w * (l.length / w) = l.length / w * w := by ring
  have h4 : w * (i + 1) = w * i + w := by ring
  simp only [List.length_take, List.length_drop]
  omega

theorem toBytes_eq_chunks (l : List Bool) :
    toBytes l = (chunks 8 l).map bitsToNat := by
  induction l using toBytes.induct with
  | case1 b0 b1 b2 b3 b4 b5 b6 b7 rest ih =>
      rw [toBytes, chunks_cons 8 _ (by omega) (by simp), List.map_cons, ih]
      rfl
  | case2 l h =>
      cases l with
      | nil => rfl
      | cons a0 t0 => cases t0 with
        | nil => rw [chunks_eq_nil 8 _ (by simp)]; rfl
        | cons a1 t1 => cases t1 with
          | nil => rw [chunks_eq_nil 8 _ (by simp)]; rfl
          | cons a2 t2 => cases t2 with
            | nil => rw [chunks_eq_nil 8 _ (by simp)]; rfl
            | cons a3 t3 => cases t3 with
              | nil => rw [chunks_eq_nil 8 _ (by simp)]; rfl
              | cons a4 t4 => cases t4 with
                | nil => rw [chunks_eq_nil 8 _ (by simp)]; rfl
                | cons a5 t5 => cases t5 with
                  | nil => rw [chunks_eq_nil 8 _ (by simp)]; rfl
                  | cons a6 t6 => cases t6 with
                    | nil => rw [chunks_eq_nil 8 _ (by simp)]; rfl
                    | cons a7 t7 => exact absurd rfl (h a0 a1 a2 a3 a4 a5 a6 a7 t7)

/-! ## The `=`-stripping and tolerant-skip lemmas -/

theorem create_b64_decode_table_pad : create_b64_decode_table '=' = none := by decide

theorem create_b64_decode_table_marker : create_b64_decode_table '!' = none := by decide

theorem rstripPad_concat (s : List Char) (c : Char) :
    rstripPad (s ++ [c]) = if c = '=' then rstripPad s else s ++ [c] := by
  unfold rstripPad
  rw [List.reverse_append]
  by_cases hc : c = '='
  · simp [hc, List.dropWhile_cons]
  · simp [List.dropWhile_cons, hc]

theorem flatMap_charBits_rstripPad (s : List Char) :
    (rstripPad s).flatMap charBits = s.flatMap charBits := by
  induction s using List.reverseRecOn with
  | nil => rfl
  | append_singleton t c ih =>
      rw [rstripPad_concat]
      by_cases hc : c = '='
      · rw [if_pos hc, ih, List.flatMap_append, hc]
        simp [charBits, create_b64_decode_table_pad]
      · rw [if_neg hc]


/-! ## Alphabet facts -/

theorem create_b64_decode_table_getD (v : Fin 64) :
    create_b64_decode_table (B64_ALPHABET.getD v.val 'a') = some v.val := by
  revert v
  decide

theorem charBits_getD (g : List Bool) (hg : g.length = 6) :
    charBits (B64_ALPHABET.getD (bitsToNat g) 'a') = g := by
  have hlt : bitsToNat g < 64 := by
    have h := bitsToNat_lt g
    rw [hg] at h
    exact h
  have h1 : create_b64_decode_table (B64_ALPHABET.getD (bitsToNat g) 'a') =
      some (bitsToNat g) := create_b64_decode_table_getD ⟨bitsToNat g, hlt⟩
  unfold charBits
  rw [h1]
  exact natBits_bitsToNat 6 g hg

theorem flatMap_charBits_encode (data : List Nat) :
    (encode_custom_b64 data).flatMap charBits =
      data.flatMap (natBits 8) ++
        List.replicate ((6 - (data.flatMap (natBits 8)).length % 6) % 6) false := by
  have hdvd : 6 ∣ (data.flatMap (natBits 8) ++
      List.replicate ((6 - (data.flatMap (natBits 8)).length % 6) % 6) false).length := by
    rw [List.length_append, List.length_replicate]
    omega
  unfold encode_custom_b64
  rw [List.flatMap_def, List.map_map]
  have hcong : List.map (charBits ∘ fun g => B64_ALPHABET.getD (bitsToNat g) 'a')
      (chunks 6 (data.flatMap (natBits 8) ++
        List.replicate ((6 - (data.flatMap (natBits 8)).length % 6) % 6) false)) =
      List.map id (chunks 6 (data.flatMap (natBits 8) ++
        List.replicate ((6 - (data.flatMap (natBits 8)).length % 6) % 6) false)) :=
    List.map_congr_left (fun g hg => charBits_getD g (length_mem_chunks 6 _ g hg))
  rw [hcong, List.map_id]
  exact join_chunks 6 _ (by omega) hdvd

theorem toBytes_byteBits (data : List Nat) (h : ∀ b ∈ data, b < 256) (extra : List Bool)
    (hx : extra.length < 8) :
    toBytes (data.flatMap (natBits 8) ++ extra) = data := by
  induction data with
  | nil =>
      rw [List.flatMap_nil, List.nil_append, toBytes_eq_chunks,
        chunks_eq_nil 8 extra hx]
      rfl
  | cons b t ih =>
      rw [List.flatMap_cons, List.append_assoc, toBytes_eq_chunks,
        chunks_cons 8 _ (by omega) (by simp [natBits_length]),
        List.map_cons, List.take_left' (natBits_length 8 b),
        List.drop_left' (natBits_length 8 b), ← toBytes_eq_chunks,
        ih (fun x hx2 => h x (List.mem_cons_of_mem b hx2)),
        bitsToNat_natBits 8 b (by have := h b (List.mem_cons_self b t); omega)]

theorem decode_custom_b64_eq_spec (encoded_str : List Char) :
    decode_custom_b64 encoded_str = decode_custom_b64_spec encoded_str := by
  unfold decode_custom_b64 decode_custom_b64_spec
  rw [flatMap_charBits_rstripPad, toBytes_eq_chunks]

theorem decode_custom_b64_marker_cons (s : List Char) :
    decode_custom_b64 ('!' :: s) = decode_custom_b64 s := by
  rw [decode_custom_b64_eq_spec, decode_custom_b64_eq_spec]
  unfold decode_custom_b64_spec
  rw [List.flatMap_cons]
  simp [charBits, create_b64_decode_table_marker]

theorem decode_custom_b64_strip_marker (s : List Char) :
    decode_custom_b64 (strip_marker s) = decode_custom_b64 s := by
  cases s with
  | nil => rfl
  | cons c t =>
      by_cases hc : c = '!'
      · subst hc
        rw [decode_custom_b64_marker_cons]
        rfl
      · unfold strip_marker
        split
        · next rest heq =>
            injection heq with h1 h2
            exact absurd h1 hc
        · rfl

/-! ## Claim theorems -/

/-- C1 (code bug): for a well-formed escape-marker serialization of a
Value tree, the structured-value deserializer does not reconstruct the
tree: it returns the fixed flat summary of the raw text (format tag,
escaped raw text, and a placeholder note), never the top-level values. -/
theorem C1_deserializer_flat_summary :
    parse_ace_serialized_data ([Char.ofNat 1, Char.ofNat 0] ++ "^T^N1^N2^t".toList) =
      [("format", PyVal.pyStr "AceSerializer".toList),
       ("raw_data", PyVal.pyStr "^T^N1^N2^t".toList),
       ("parsed_data",
        PyVal.pyStr "Partial parsing - full AceSerializer implementation needed".toList)] :=
  rfl

/-- C2 (code bug): on a malformed token stream (an unbalanced table-open
marker with no matching close at end-of-stream) the deserializer does not
report any MalformedStream error with a byte offset: it returns the same
flat summary dictionary, with no "error" key at all. -/
theorem C2_malformed_stream_not_reported :
    parse_ace_serialized_data "^T^N1".toList =
      [("format", PyVal.pyStr "AceSerializer".toList),
       ("raw_data", PyVal.pyStr "^T^N1".toList),
       ("parsed_data",
        PyVal.pyStr "Partial parsing - full AceSerializer implementation needed".toList)] ∧
    List.lookup "error" (parse_ace_serialized_data "^T^N1".toList) = none :=
  ⟨rfl, rfl⟩

/-- C3: for every input string the alphabet decoder equals the reference
algorithm of the spec: alphabet characters contribute their 6-bit position
value, other characters are skipped, and the concatenated bits are
re-sliced into 8-bit bytes with an incomplete final group dropped. -/
theorem C3_alphabet_decoder_matches_spec (encoded_str : List Char) :
    decode_custom_b64 encoded_str = decode_custom_b64_spec encoded_str :=
  decode_custom_b64_eq_spec encoded_str

/-- C4: alphabet-encoding any byte sequence and then running the alphabet
decoder returns the original byte sequence exactly (so in particular the
original minus at most one trailing partial byte: nothing is lost). -/
theorem C4_alphabet_roundtrip (data : List Nat) (h : ∀ b ∈ data, b < 256) :
    decode_custom_b64 (encode_custom_b64 data) = data := by
  unfold decode_custom_b64
  rw [flatMap_charBits_rstripPad, flatMap_charBits_encode]
  exact toBytes_byteBits data h _ (by rw [List.length_replicate]; omega)

/-- Witness for C4 at a concrete byte sequence. -/
theorem C4_alphabet_roundtrip_witness :
    (∀ b ∈ [0, 10, 127, 200, 255], b < 256) ∧
    decode_custom_b64 (encode_custom_b64 [0, 10, 127, 200, 255]) = [0, 10, 127, 200, 255] :=
  ⟨by decide, C4_alphabet_roundtrip [0, 10, 127, 200, 255] (by decide)⟩

/-- C5: whenever the decompression codec rejects the alphabet-decoded
bytes, the pipeline short-circuits into a failure result that carries the
codec's diagnostic text and has no metadata or route-data fields. -/
theorem C5_decompression_failure
    (zlibDecompress : List Nat → Except (List Char) (List Nat))
    (route_string e : List Char)
    (h : zlibDecompress (decode_custom_b64 (strip_marker route_string)) = Except.error e) :
    decode_mdt_route_string zlibDecompress route_string =
      [("error", PyVal.pyStr
          ("Failed to decode route string: Decompression failed: ".toList ++ e)),
       ("original_string", PyVal.pyStr (excerpt route_string))] := by
  simp only [decode_mdt_route_string, decompress_data, h]
  rfl

/-- Witness for C5 at a concrete failing codec and input. -/
theorem C5_decompression_failure_witness :
    (fun (_ : List Nat) => (Except.error "invalid stream".toList : Except (List Char) (List Nat)))
        (decode_custom_b64 (strip_marker "!abc".toList)) = Except.error "invalid stream".toList ∧
    decode_mdt_route_string (fun _ => Except.error "invalid stream".toList) "!abc".toList =
      [("error", PyVal.pyStr
          ("Failed to decode route string: Decompression failed: ".toList ++ "invalid stream".toList)),
       ("original_string", PyVal.pyStr (excerpt "!abc".toList))] :=
  ⟨rfl, C5_decompression_failure _ _ _ rfl⟩

/-- C6 counterexample: at a reachable success (68 input characters
alphabet-decoding to 51 bytes, decompressing to 40 bytes) the reported
compression ratio is the float64 rounding `pyRound2` of the float64
quotient — the double 1.27 — which differs from the claim's exact
rounding of 51/40 = 1.275 to 2 decimal digits, namely 1.28 = 32/25. -/
theorem C6_ratio_counterexample :
    List.lookup "metadata"
        (decode_mdt_route_string (fun _ => Except.ok (List.replicate 40 0))
          (List.replicate 68 'a')) =
      some (PyVal.pyDict
        [("original_length", PyVal.pyInt 68),
         ("compressed_length", PyVal.pyInt 51),
         ("decompressed_length", PyVal.pyInt 40),
         ("compression_ratio", PyVal.pyFloat (pyRound2 (mkRat 51 40)))]) ∧
    pyRound2 (mkRat 51 40) ≠ round2 (mkRat 51 40) ∧
    round2 (mkRat 51 40) = mkRat 32 25 ∧
    mkRat 51 40 = (51 : ℚ) / 40 := by
  refine ⟨rfl, by decide, by decide, ?_⟩
  rw [Rat.mkRat_eq_div]
  norm_num

/-- C6 as amended: every successful decode reports, in its metadata, the
original, compressed (alphabet-decoded) and decompressed lengths, and a
compression ratio equal to the binary64 rounding (`pyRound2`) of the
quotient of compressed by decompressed length — Python's
`round(c / d, 2)` over floats — which can differ by one unit in the last
decimal place from the exact rounding of the true quotient. -/
theorem C6_success_metadata_float
    (zlibDecompress : List Nat → Except (List Char) (List Nat))
    (route_string : List Char) (dd : List Nat)
    (h : zlibDecompress (decode_custom_b64 (strip_marker route_string)) = Except.ok dd)
    (hne : dd ≠ []) :
    List.lookup "metadata" (decode_mdt_route_string zlibDecompress route_string) =
      some (PyVal.pyDict
        [("original_length", PyVal.pyInt route_string.length),
         ("compressed_length",
          PyVal.pyInt (decode_custom_b64 (strip_marker route_string)).length),
         ("decompressed_length", PyVal.pyInt dd.length),
         ("compression_ratio", PyVal.pyFloat
            (pyRound2 (((decode_custom_b64 (strip_marker route_string)).length : ℚ) /
              (dd.length : ℚ))))]) := by
  have hz : ¬dd.length = 0 := by
    simpa [List.length_eq_zero] using hne
  have hc : mkRat ((decode_custom_b64 (strip_marker route_string)).length : ℤ) dd.length =
      ((decode_custom_b64 (strip_marker route_string)).length : ℚ) / (dd.length : ℚ) := by
    rw [Rat.mkRat_eq_div]
    push_cast
    rfl
  simp only [decode_mdt_route_string, decompress_data, h, hz, if_false, ← hc]
  rfl

/-- Witness for the amended C6 at a concrete codec and input. -/
theorem C6_success_metadata_float_witness :
    (fun (_ : List Nat) => (Except.ok [104, 105] : Except (List Char) (List Nat)))
        (decode_custom_b64 (strip_marker "ab".toList)) = Except.ok [104, 105] ∧
    ([104, 105] : List Nat) ≠ [] ∧
    List.lookup "metadata"
        (decode_mdt_route_string (fun _ => Except.ok [104, 105]) "ab".toList) =
      some (PyVal.pyDict
        [("original_length", PyVal.pyInt ("ab".toList).length),
         ("compressed_length",
          PyVal.pyInt (decode_custom_b64 (strip_marker "ab".toList)).length),
         ("decompressed_length", PyVal.pyInt ([104, 105] : List Nat).length),
         ("compression_ratio", PyVal.pyFloat
            (pyRound2 (((decode_custom_b64 (strip_marker "ab".toList)).length : ℚ) /
              (([104, 105] : List Nat).length : ℚ))))]) :=
  ⟨rfl, by simp, C6_success_metadata_float _ _ _ rfl (by simp)⟩

/-- C7 counterexample: a failing 103-character input consisting of 100
characters followed by "..." produces a failure result whose
original-string field is the full input — 103 characters, more than the
claimed 100-character bound, and identical to the complete input. -/
theorem C7_excerpt_counterexample :
    100 < (List.replicate 100 'a' ++ "...".toList).length ∧
    List.lookup "original_string"
        (decode_mdt_route_string (fun _ => Except.error [])
          (List.replicate 100 'a' ++ "...".toList)) =
      some (PyVal.pyStr (List.replicate 100 'a' ++ "...".toList)) := by
  constructor
  · simp
  · rfl

/-- C7 as amended: every failure result carries the failing stage's
message together with the input itself when it has at most 100 characters,
and otherwise the first 100 characters of the input followed by a fixed
3-character ellipsis, so the echoed field never exceeds 103 characters and
never contains more than the first 100 characters of the input. -/
theorem C7_excerpt_amended
    (zlibDecompress : List Nat → Except (List Char) (List Nat))
    (route_string : List Char)
    (h : List.lookup "error" (decode_mdt_route_string zlibDecompress route_string) ≠ none) :
    (∃ m, decode_mdt_route_string zlibDecompress route_string =
        [("error", PyVal.pyStr m),
         ("original_string", PyVal.pyStr (excerpt route_string))]) ∧
    (excerpt route_string).length ≤ 103 ∧
    (excerpt route_string).take 100 = route_string.take 100 ∧
    (100 < route_string.length → (excerpt route_string).drop 100 = "...".toList) := by
  refine ⟨?_, ?_, ?_, ?_⟩
  · cases hd : zlibDecompress (decode_custom_b64 (strip_marker route_string)) with
    | error e =>
        refine ⟨"Failed to decode route string: Decompression failed: ".toList ++ e, ?_⟩
        simp only [decode_mdt_route_string, decompress_data, hd]
        rfl
    | ok dd =>
        by_cases hz : dd.length = 0
        · refine ⟨"Failed to decode route string: division by zero".toList, ?_⟩
          simp only [decode_mdt_route_string, decompress_data, hd, hz, if_true]
          rfl
        · exfalso
          simp only [decode_mdt_route_string, decompress_data, hd, hz, if_false] at h
          exact absurd rfl h
  · unfold excerpt
    split
    · next hlen =>
        have h3 : ("...".toList : List Char).length = 3 := rfl
        simp only [List.length_append, List.length_take, h3]
        omega
    · next hlen => omega
  · unfold excerpt
    split
    · next hlen =>
        rw [List.take_left' (by rw [List.length_take]; omega)]
    · rfl
  · intro hlen
    unfold excerpt
    rw [if_pos hlen, List.drop_left' (by rw [List.length_take]; omega)]

/-- Witness for the amended C7 at a concrete failing input. -/
theorem C7_excerpt_amended_witness :
    List.lookup "error"
        (decode_mdt_route_string (fun _ => Except.error []) "z".toList) ≠ none ∧
    ((∃ m, decode_mdt_route_string (fun _ => Except.error []) "z".toList =
        [("error", PyVal.pyStr m),
         ("original_string", PyVal.pyStr (excerpt "z".toList))]) ∧
    (excerpt "z".toList).length ≤ 103 ∧
    (excerpt "z".toList).take 100 = ("z".toList).take 100 ∧
    (100 < ("z".toList).length → (excerpt "z".toList).drop 100 = "...".toList)) :=
  ⟨fun hc => Option.noConfusion hc,
   C7_excerpt_amended _ _ (fun hc => Option.noConfusion hc)⟩

/-- C8 counterexample: the input "!" (sentinel only) and the input with
the sentinel removed (the empty string) decode to different results — the
failure results echo different original strings. -/
theorem C8_sentinel_counterexample :
    decode_mdt_route_string (fun _ => Except.error []) ['!'] ≠
      decode_mdt_route_string (fun _ => Except.error []) [] := by
  intro hcontra
  have h2 : (some (PyVal.pyStr ['!']) : Option PyVal) = some (PyVal.pyStr []) := by
    have h3 := congrArg (List.lookup "original_string") hcontra
    exact h3
  simp at h2

/-- C8 as amended: decoding an input with the sentinel marker and decoding
it with the marker removed produce identical results except for the fields
that echo the original input (the success metadata's original length and
the failure result's original-string excerpt); the route data, compressed
and decompressed lengths, compression ratio and error message coincide. -/
theorem C8_sentinel_amended
    (zlibDecompress : List Nat → Except (List Char) (List Nat)) (s : List Char) :
    eraseInputEcho (decode_mdt_route_string zlibDecompress ('!' :: s)) =
      eraseInputEcho (decode_mdt_route_string zlibDecompress s) := by
  have hb : decode_custom_b64 (strip_marker ('!' :: s)) =
      decode_custom_b64 (strip_marker s) := by
    show decode_custom_b64 s = decode_custom_b64 (strip_marker s)
    rw [decode_custom_b64_strip_marker]
  simp only [decode_mdt_route_string, decompress_data, hb]
  cases hd : zlibDecompress (decode_custom_b64 (strip_marker s)) with
  | error e => rfl
  | ok dd =>
      by_cases hz : dd.length = 0
      · simp only [hz, if_true]
        rfl
      · simp only [hz, if_false]
        rfl

/-- C9: for every codec behaviour and every input string, the decoder
returns a dictionary of exactly one of the two shapes: the success shape
with keys metadata and route_data, or the failure shape with keys error
and original_string. -/
theorem C9_result_shape
    (zlibDecompress : List Nat → Except (List Char) (List Nat))
    (route_string : List Char) :
    (decode_mdt_route_string zlibDecompress route_string).map Prod.fst =
        ["metadata", "route_data"] ∨
    (decode_mdt_route_string zlibDecompress route_string).map Prod.fst =
        ["error", "original_string"] := by
  simp only [decode_mdt_route_string, decompress_data]
  cases zlibDecompress (decode_custom_b64 (strip_marker route_string)) with
  | error e => right; rfl
  | ok dd =>
      by_cases hz : dd.length = 0
      · right
        simp only [hz, if_true]
        rfl
      · left
        simp only [hz, if_false]
        rfl

/-- C10: when the codec succeeds but yields an empty decompressed byte
sequence, the unguarded division by the decompressed length makes the
decoder return the failure shape (the division-by-zero exception is
caught), never a success with zero decompressed length. -/
theorem C10_empty_decompression
    (zlibDecompress : List Nat → Except (List Char) (List Nat))
    (route_string : List Char)
    (h : zlibDecompress (decode_custom_b64 (strip_marker route_string)) = Except.ok []) :
    decode_mdt_route_string zlibDecompress route_string =
      [("error", PyVal.pyStr "Failed to decode route string: division by zero".toList),
       ("original_string", PyVal.pyStr (excerpt route_string))] := by
  simp only [decode_mdt_route_string, decompress_data, h]
  rfl

/-- Witness for C10 at a concrete codec and input. -/
theorem C10_empty_decompression_witness :
    (fun (_ : List Nat) => (Except.ok [] : Except (List Char) (List Nat)))
        (decode_custom_b64 (strip_marker "abc".toList)) = Except.ok [] ∧
    decode_mdt_route_string (fun _ => Except.ok []) "abc".toList =
      [("error", PyVal.pyStr "Failed to decode route string: division by zero".toList),
       ("original_string", PyVal.pyStr (excerpt "abc".toList))] :=
  ⟨rfl, C10_empty_decompression _ _ rfl⟩
